import Mathlib

/-!
# Verification of the mood-journaling pipeline

Shallow embedding of the journal conversion, NLP, and storage layers of the
mood-journaling repository (`convert_journal.py`, `app/nlp_utils.py`,
`app/db.py`), together with theorems settling the frozen claims about the
natural-language specification.

Python strings are modelled as `List Char` (one element per code point) or as
Lean `String` where only whole-string equality matters.  Python floats are
modelled as `ℚ`: every float operation used by the code is an order comparison
against a literal, which the rational model reflects exactly.
-/

/-- ASCII whitespace as recognised by Python's `str.strip`, `str.split()` and
the regex class `\s` (space, tab, newline, carriage return, vertical tab,
form feed).  Unicode whitespace is not used by any input considered here. -/
def pyIsSpace (c : Char) : Bool :=
  c = ' ' || c = '\t' || c = '\n' || c = '\x0d' || c = '\x0b' || c = '\x0c'

/-- ASCII word characters, the regex class `\w` : letters, digits, underscore. -/
def isWordChar (c : Char) : Bool :=
  ('a' ≤ c && c ≤ 'z') || ('A' ≤ c && c ≤ 'Z') || ('0' ≤ c && c ≤ '9') || c = '_'

/-- ASCII decimal digits, the regex class `\d`. -/
def isDigitChar (c : Char) : Bool :=
  '0' ≤ c && c ≤ '9'

/-- The regex class `[a-f0-9]` used for the 32-character export hash. -/
def isHexLower (c : Char) : Bool :=
  ('a' ≤ c && c ≤ 'f') || ('0' ≤ c && c ≤ '9')

/-- ASCII letters, the regex class `[a-zA-Z]` of `extract_keywords`. -/
def isAsciiLetter (c : Char) : Bool :=
  ('a' ≤ c && c ≤ 'z') || ('A' ≤ c && c ≤ 'Z')

/-- Python `str.strip()` on ASCII text: drop whitespace from both ends. -/
def pyStrip (s : List Char) : List Char :=
  ((s.dropWhile pyIsSpace).reverse.dropWhile pyIsSpace).reverse

/-- Python `str.lstrip('-')`: drop every leading hyphen. -/
def pyLStripDash (s : List Char) : List Char :=
  s.dropWhile (· = '-')

/-- `os.path.splitext(p)[0]` for a path without directory separators:
the extension starts at the last dot, except that a dot with only dots
before it does not start an extension (so `.bashrc` keeps its name). -/
def splitextBase (s : List Char) : List Char :=
  let r := s.reverse
  match r.dropWhile (· ≠ '.') with
  | [] => s
  | _ :: before =>
    if before.any (· ≠ '.') then before.reverse else s

/-- `re.sub(r'\s[a-f0-9]{32}$', '', name)`: if the string ends in exactly a
whitespace character followed by 32 lowercase-hex characters, remove those 33
characters; otherwise leave it unchanged.  (If a 33rd hex character precedes
the final 32, the regex does not match, because the character before the
32-character tail must be `\s`.) -/
def hexStrip (s : List Char) : List Char :=
  let r := s.reverse
  let h := r.take 32
  match r.drop 32 with
  | [] => s
  | w :: rest =>
    if h.length = 32 && h.all isHexLower && pyIsSpace w then rest.reverse else s

/-- The filename cleaning step of `extract_date_from_filename`
(`convert_journal.py` line 29):
`re.sub(r'\s[a-f0-9]{32}$', '', os.path.splitext(filename)[0]).strip()`. -/
def cleanFilename (s : List Char) : List Char :=
  pyStrip (hexStrip (splitextBase s))

/-- `int(s)` on a string of decimal digits. -/
def digitsToNat (s : List Char) : Nat :=
  s.foldl (fun a c => 10 * a + (c.toNat - 48)) 0

/-- The Python format spec `{n:02d}` for `n ≤ 99`: decimal, zero-padded to
width two. -/
def pad2 (n : Nat) : List Char :=
  if n < 10 then '0' :: Nat.toDigits 10 n else Nat.toDigits 10 n

/-- Two-digit year expansion: `if len(year) == 2: year = '20' + year`. -/
def yearExpand (y : List Char) : List Char :=
  if y.length = 2 then '2' :: '0' :: y else y

/-- `s.startswith(p)` on character lists. -/
def listStartsWith : List Char → List Char → Bool
  | [], _ => true
  | _ :: _, [] => false
  | p :: ps, c :: cs => p = c && listStartsWith ps cs

/-- Result of the numeric date patterns 1–2: the two one-or-two-digit groups,
the year group as matched (two to four digits, before expansion), and the
text after the end of the match. -/
structure NumDateMatch where
  monthN : Nat
  dayN : Nat
  yearStr : List Char
  rest : List Char
deriving DecidableEq, Repr

/-- The shared tail `(\d{1,2})\s+(\d{1,2})\s+(\d{2,4})` of regex patterns 1
and 2 of `extract_date_from_filename`, matched at the start of `s`.

Greedy matching is deterministic here because `\d` and `\s` are disjoint: each
`(\d{1,2})` must consume an entire maximal digit run (a leftover digit would
make the following `\s+` fail), so a run longer than two digits fails the
group; the final `(\d{2,4})` consumes the first four characters of its run
(or the whole run if shorter) and the match ends there, even if further
digits follow. -/
def pat12core (s : List Char) : Option NumDateMatch :=
  let (d1, r1) := s.span isDigitChar
  if 1 ≤ d1.length && d1.length ≤ 2 then
    let (w1, r2) := r1.span pyIsSpace
    if w1.length ≥ 1 then
      let (d2, r3) := r2.span isDigitChar
      if 1 ≤ d2.length && d2.length ≤ 2 then
        let (w2, r4) := r3.span pyIsSpace
        if w2.length ≥ 1 then
          let (d3, r5) := r4.span isDigitChar
          if 2 ≤ d3.length then
            some ⟨digitsToNat d1, digitsToNat d2, d3.take 4, d3.drop 4 ++ r5⟩
          else none
        else none
      else none
    else none
  else none

/-- Pattern 1, `^(?:\w+)\s+(\d{1,2})\s+(\d{1,2})\s+(\d{2,4})`: a nonempty
word-character run (note `\w` includes digits and underscore), a nonempty
whitespace run, then the shared numeric tail.  `\w+` must consume its whole
maximal run: any shorter prefix is followed by a word character, on which
`\s+` fails. -/
def pat1 (s : List Char) : Option NumDateMatch :=
  let (w, r1) := s.span isWordChar
  if w.length ≥ 1 then
    let (ws, r2) := r1.span pyIsSpace
    if ws.length ≥ 1 then pat12core r2 else none
  else none

/-- `f"{year}-{int(month):02d}-{int(day):02d}"` for patterns 1 and 2 (after
two-digit year expansion). -/
def mkNumDateStr (m : NumDateMatch) : List Char :=
  yearExpand m.yearStr ++ '-' :: (pad2 m.monthN ++ '-' :: pad2 m.dayN)

/-- Residual title for patterns 1–2:
`name[match.end():].strip().lstrip('-').strip()`. -/
def titleFromRest (rest : List Char) : List Char :=
  pyStrip (pyLStripDash (pyStrip rest))

/-- The month-abbreviation table of pattern 3, in the insertion order used to
build the regex alternation `jan|feb|...|dec`. -/
def monthAbbrevs : List (List Char × Nat) :=
  [(['j','a','n'], 1), (['f','e','b'], 2), (['m','a','r'], 3),
   (['a','p','r'], 4), (['m','a','y'], 5), (['j','u','n'], 6),
   (['j','u','l'], 7), (['a','u','g'], 8), (['s','e','p'], 9),
   (['o','c','t'], 10), (['n','o','v'], 11), (['d','e','c'], 12)]

/-- Case-insensitive prefix match of a (lowercase) literal against `s`,
returning the remainder on success — the `re.IGNORECASE` alternation step. -/
def ciMatchLit : List Char → List Char → Option (List Char)
  | [], s => some s
  | _ :: _, [] => none
  | p :: ps, c :: cs => if c.toLower = p then ciMatchLit ps cs else none

/-- Try to match the tail of pattern 3 after a month alternative succeeded:
`[a-z]*\s+(\d{1,2})(?:st|nd|rd|th)?(?:,)?\s+(\d{4})` under `re.IGNORECASE`
(so `[a-z]` also matches uppercase letters).  Greedy matching is again
deterministic: letters, whitespace and digits are pairwise disjoint, and
whenever the optional ordinal-suffix or comma group can consume, declining to
consume leaves a letter or comma where `\s+` or a digit is required. -/
def pat3tail (s : List Char) : Option (Nat × List Char) :=
  let (_, r1) := s.span (fun c => isAsciiLetter c)
  let (ws1, r2) := r1.span pyIsSpace
  if ws1.length ≥ 1 then
    let (d1, r3) := r2.span isDigitChar
    if 1 ≤ d1.length && d1.length ≤ 2 then
      let r4 :=
        match r3 with
        | a :: b :: rest =>
          if (a.toLower = 's' && b.toLower = 't') ||
             (a.toLower = 'n' && b.toLower = 'd') ||
             (a.toLower = 'r' && b.toLower = 'd') ||
             (a.toLower = 't' && b.toLower = 'h') then rest else r3
        | _ => r3
      let r5 := match r4 with | ',' :: rest => rest | _ => r4
      let (ws2, r6) := r5.span pyIsSpace
      if ws2.length ≥ 1 then
        let (d2, _) := r6.span isDigitChar
        if 4 ≤ d2.length then some (digitsToNat d1, d2.take 4) else none
      else none
    else none
  else none

/-- Pattern 3 matched at one start position: try the twelve month
alternatives in table order, then the tail. -/
def pat3here (s : List Char) : Option (Nat × Nat × List Char) :=
  (monthAbbrevs.filterMap fun (abbr, m) =>
    (ciMatchLit abbr s).bind fun rest =>
      (pat3tail rest).map fun (d, y) => (m, d, y)).head?

/-- `re.search`: scan start positions left to right, first position where the
whole pattern matches wins. -/
def pat3search : List Char → Option (Nat × Nat × List Char)
  | [] => none
  | c :: cs =>
    match pat3here (c :: cs) with
    | some r => some r
    | none => pat3search cs

/-- `f"{year}-{int(month):02d}-{int(day):02d}"` for pattern 3 (year is the
four-digit group as matched). -/
def mkMonthNameDateStr (m d : Nat) (y : List Char) : List Char :=
  y ++ '-' :: (pad2 m ++ '-' :: pad2 d)

/-- `extract_date_from_filename` (`convert_journal.py` lines 23–66): clean the
filename, then try pattern 1, pattern 2, and the month-name pattern 3 in
order; return the date string (or none) and the residual title (for pattern 3
and for no match, the whole cleaned name). -/
def extract_date_from_filename (filename : List Char) : Option (List Char) × List Char :=
  let name := cleanFilename filename
  match pat1 name with
  | some m => (some (mkNumDateStr m), titleFromRest m.rest)
  | none =>
    match pat12core name with
    | some m => (some (mkNumDateStr m), titleFromRest m.rest)
    | none =>
      match pat3search name with
      | some (m, d, y) => (some (mkMonthNameDateStr m d y), name)
      | none => (none, name)

/-- Python `s.split('\n')`: split at every newline, keeping empty pieces. -/
def splitOnChar (sep : Char) : List Char → List (List Char)
  | [] => [[]]
  | x :: xs =>
    match splitOnChar sep xs with
    | h :: t => if x = sep then [] :: h :: t else (x :: h) :: t
    | [] => [[x]]

/-- The line scan of `get_entry_details` (`convert_journal.py` lines 85–94),
threading the mutable `title_from_content` and accumulating `content_lines`.

The first line starting with `"# "` while the title is still unset becomes the
title and is not appended.  In the source, that branch then checks whether the
following line is blank and executes `continue` — which only ends the current
iteration early; since the branch appends nothing anyway, the check has no
effect on the state, and the following blank line is processed normally on the
next iteration (so it IS appended; see the claim about blank-line dropping).
`Created:`/`Updated:` lines are skipped; every other line is appended. -/
def scanLines : Option (List Char) → List (List Char) → Option (List Char) × List (List Char)
  | title, [] => (title, [])
  | title, l :: ls =>
    if listStartsWith ['#', ' '] l && title.isNone then
      scanLines (some (pyStrip (l.drop 2))) ls
    else if listStartsWith "Created:".toList l || listStartsWith "Updated:".toList l then
      scanLines title ls
    else
      let (t, cs) := scanLines title ls
      (t, l :: cs)

/-- The normalized entry produced from one markdown file. -/
structure EntryDetails where
  date : Option (List Char)
  title : List Char
  content : List Char
deriving DecidableEq, Repr

/-- Python `x or y or "Untitled Entry"` on an optional string and a string:
`None` and the empty string are both falsy. -/
def pyOrTitle (a : Option (List Char)) (b : List Char) : List Char :=
  match a with
  | some t => if t ≠ [] then t else (if b ≠ [] then b else "Untitled Entry".toList)
  | none => if b ≠ [] then b else "Untitled Entry".toList

/-- `get_entry_details` (`convert_journal.py` lines 69–99): date and residual
title from the filename, content-derived title and body from the line scan,
final title by Python `or`-chaining, final content joined with newlines and
stripped. -/
def get_entry_details (filename content : List Char) : EntryDetails :=
  let fr := extract_date_from_filename filename
  let sc := scanLines none (splitOnChar '\n' content)
  ⟨fr.1, pyOrTitle sc.1 fr.2, pyStrip (List.intercalate ['\n'] sc.2)⟩

/-- A pandas `Timestamp` at midnight, i.e. a proleptic-Gregorian calendar
date.  All timestamps arising here come from date strings, so only the date
part is modelled. -/
structure PdTimestamp where
  year : Nat
  month : Nat
  day : Nat
deriving DecidableEq, Repr

/-- Gregorian leap year. -/
def isLeapYear (y : Nat) : Bool :=
  y % 4 = 0 && (y % 100 ≠ 0 || y % 400 = 0)

/-- Days in a month of the Gregorian calendar. -/
def daysInMonth (y m : Nat) : Nat :=
  if m = 2 then (if isLeapYear y then 29 else 28)
  else if m = 4 || m = 6 || m = 9 || m = 11 then 30
  else 31

/-- Calendar validity of a year-month-day triple. -/
def dateOk (y m d : Nat) : Bool :=
  1 ≤ m && m ≤ 12 && 1 ≤ d && d ≤ daysInMonth y m

/-- Midnight timestamps representable as pandas `datetime64[ns]`
(`pd.Timestamp.min` is in 1677-09-21, `pd.Timestamp.max` in 2262-04-11;
midnights are representable from 1677-09-22 through 2262-04-11). -/
def tsBoundsOk (y m d : Nat) : Bool :=
  (1677 < y || (y = 1677 && (9 < m || (m = 9 && 22 ≤ d)))) &&
  (y < 2262 || (y = 2262 && (m < 4 || (m = 4 && d ≤ 11))))

/-- A representable, calendar-valid timestamp. -/
def tsOk (t : PdTimestamp) : Bool :=
  dateOk t.year t.month t.day && tsBoundsOk t.year t.month t.day

/-- Parse `Y-M-D` where the three parts are nonempty digit strings. -/
def parseDashTriple (s : List Char) : Option (Nat × Nat × Nat) :=
  match splitOnChar '-' s with
  | [a, b, c] =>
    if !a.isEmpty && a.all isDigitChar && !b.isEmpty && b.all isDigitChar &&
       !c.isEmpty && c.all isDigitChar then
      some (digitsToNat a, digitsToNat b, digitsToNat c)
    else none
  | _ => none

/-- `pd.to_datetime(s, errors='coerce')` for one date string of the shape
`f"{year}-{month:02d}-{day:02d}"` produced by `extract_date_from_filename`:
the ISO fast path accepts exactly the calendar-valid, representable dates and
coerces everything else to `NaT`.  (Lenient non-ISO fallbacks of the
underlying parser for strings this pipeline never produces are not
modelled; no theorem depends on them.) -/
def pdToDatetime (s : List Char) : Option PdTimestamp :=
  match parseDashTriple s with
  | some (y, m, d) =>
    if dateOk y m d && tsBoundsOk y m d then some ⟨y, m, d⟩ else none
  | none => none

/-- One row of the converter's first-stage output: an entry whose filename
yielded a date string. -/
structure RawEntry where
  date : List Char
  title : List Char
  content : List Char
deriving DecidableEq, Repr

/-- One surviving row of the converter after the second-stage date
validation replaced the date string by a parsed timestamp. -/
structure ConvRow where
  date : PdTimestamp
  title : List Char
  content : List Char
deriving DecidableEq, Repr

/-- `convert_journal_files` lines 121–134: run `get_entry_details` on every
`.md` file (given as `(filename, content)` pairs in directory-enumeration
order) and keep the entries that obtained a date string.  File-read
exceptions, which only increment the skip counter, are not modelled. -/
def firstStageEntries (files : List (List Char × List Char)) : List RawEntry :=
  files.filterMap fun fc =>
    match get_entry_details fc.1 fc.2 with
    | ⟨some d, t, c⟩ => some ⟨d, t, c⟩
    | ⟨none, _, _⟩ => none

/-- `convert_journal_files` lines 148–152: `pd.to_datetime(errors='coerce')`
on the date column followed by `dropna` — rows whose date string fails the
second-stage parse are dropped. -/
def secondStage (entries : List RawEntry) : List ConvRow :=
  entries.filterMap fun e => (pdToDatetime e.date).map fun t => ⟨t, e.title, e.content⟩

/-- The result skeleton of `convert_journal_files` (lines 106–155): `none`
models the `return None` terminal failures (missing directory, empty
`entries` list); `some rows` models reaching the CSV-writing tail with the
surviving rows (before the final sort).  The input is `none` when the source
directory does not exist, otherwise the list of `.md` files. -/
def convert_survivors (fs : Option (List (List Char × List Char))) : Option (List ConvRow) :=
  match fs with
  | none => none
  | some files =>
    let entries := firstStageEntries files
    if entries.isEmpty then none else some (secondStage entries)

/-- Ascending comparison of timestamps (lexicographic on year, month, day). -/
def dateLe (a b : PdTimestamp) : Bool :=
  if a.year ≠ b.year then a.year < b.year
  else if a.month ≠ b.month then a.month < b.month
  else a.day ≤ b.day

/-- `df.sort_values(by='date')` (line 156) with the default
`kind='quicksort'`.  The library contract for the default kind guarantees
only that the result is a permutation of the rows that is ascending in the
key; it does not promise a stable sort (`'mergesort'`/`'stable'` are
documented as the only stable kinds).  The call is therefore modelled as a
relation: every key-sorted permutation is an admissible outcome. -/
def sortValuesOutcome (input output : List ConvRow) : Prop :=
  output.Perm input ∧ output.Pairwise (fun a b => dateLe a.date b.date = true)

/-- The rows written to the output CSV by `convert_journal_files`: the
surviving rows, in some admissible order of the date sort. -/
def convertOutput (fs : Option (List (List Char × List Char))) (rows : List ConvRow) : Prop :=
  ∃ survivors, convert_survivors fs = some survivors ∧ sortValuesOutcome survivors rows

/-- SQLite's default (BINARY) text comparison: byte-wise `memcmp`, a shorter
string that is a prefix of a longer one comparing smaller.  For the ASCII
strings stored here, byte order coincides with code-point order, so the
comparison is modelled character-wise with the code-point order on `Char`. -/
def textLtB : List Char → List Char → Bool
  | [], [] => false
  | [], _ :: _ => true
  | _ :: _, [] => false
  | a :: as, b :: bs => if a < b then true else if b < a then false else textLtB as bs

/-- Non-strict version of `textLtB`. -/
def textLeB (a b : List Char) : Bool := !(textLtB b a)

/-- Zero-padded two-digit decimal rendering, `f"{n:02d}"` for `n ≤ 99` —
written digit-wise (all values rendered this way in the store are at most
two digits). -/
def iso2 (n : Nat) : List Char := [Nat.digitChar (n / 10 % 10), Nat.digitChar (n % 10)]

/-- Four-digit decimal year rendering (representable timestamp years all
have exactly four digits). -/
def iso4 (n : Nat) : List Char := iso2 (n / 100) ++ iso2 (n % 100)

/-- The date part of `str(pd.Timestamp(...))`: `YYYY-MM-DD`. -/
def isoRender (t : PdTimestamp) : List Char :=
  iso4 t.year ++ '-' :: (iso2 t.month ++ '-' :: iso2 t.day)

/-- The value held by the `date` column of a dataframe handed to
`insert_entries`: either a pandas timestamp (the enriched pipeline converts
the column with `pd.to_datetime`) or a plain string (raw CSV form). -/
inductive PyDateVal where
  | ts (t : PdTimestamp)
  | strv (s : List Char)
deriving DecidableEq, Repr

/-- `str(row['date'])` (`db.py` line 115): a midnight timestamp prints as
`YYYY-MM-DD 00:00:00`; a string prints as itself. -/
def PyDateVal.pyStr : PyDateVal → List Char
  | .ts t => isoRender t ++ ' ' :: "00:00:00".toList
  | .strv s => s

/-- One entry of the dataframe passed to `insert_entries`; optional columns
are absent when the dataframe lacks them. -/
structure InsEntry where
  date : PyDateVal
  title : Option (List Char)
  content : List Char
  sentiment_score : Option ℚ
  mood_category : Option (List Char)
  keywords : Option (List (List Char))
deriving DecidableEq

/-- One stored row of the `journal_entries` table (the surrogate id and
`created_at` timestamp carry no information used by any query considered
here and are omitted). -/
structure DbRow where
  date : List Char
  title : List Char
  content : List Char
  sentiment_score : ℚ
  mood_category : List Char
  keywords : List Char
deriving DecidableEq

/-- `','.join(row.get('keywords', [])) if row.get('keywords') else ''`
(`db.py` line 108): an absent or empty keyword list (both falsy) stores the
empty string. -/
def keywordsJoin : Option (List (List Char)) → List Char
  | some (k :: ks) => List.intercalate [','] (k :: ks)
  | _ => []

/-- The tuple bound by the INSERT statement (`db.py` lines 110–121):
`str(row['date'])`, `row.get('title', '')`, `row['content']`,
`row.get('sentiment_score', 0.0)`, `row.get('mood_category', 'Neutral')`,
and the joined keywords. -/
def rowOf (e : InsEntry) : DbRow :=
  ⟨e.date.pyStr, e.title.getD [], e.content, e.sentiment_score.getD 0,
   e.mood_category.getD "Neutral".toList, keywordsJoin e.keywords⟩

/-- `insert_entries` (`db.py` lines 84–132): append one row per dataframe
entry and return the new table together with the inserted count. -/
def insert_entries (db : List DbRow) (entries : List InsEntry) : List DbRow × Nat :=
  (db ++ entries.map rowOf, entries.length)

/-- The row ordering of `ORDER BY date DESC` on the TEXT `date` column:
`a` may precede `b` when `b.date ≤ a.date` in the BINARY collation. -/
def descByDate (a b : DbRow) : Prop := textLeB b.date a.date = true

instance : DecidableRel descByDate := fun a b => by
  unfold descByDate
  infer_instance

/-- `pd.to_datetime` applied to one stored date string when reading rows
back: accepts `YYYY-MM-DD` and `YYYY-MM-DD 00:00:00` (the only shapes the
pipeline stores); everything else is modelled as `none` (the call would
raise). -/
def pdToDatetimeStored (s : List Char) : Option PdTimestamp :=
  match splitOnChar ' ' s with
  | [d] => pdToDatetime d
  | [d, t] => if t = "00:00:00".toList then pdToDatetime d else none
  | _ => none

/-- `x.split(',') if x else []` (`db.py` lines 156–158). -/
def keywordsSplit (s : List Char) : List (List Char) :=
  if s.isEmpty then [] else splitOnChar ',' s

/-- One row of the dataframe returned by the query methods, after the date
column was re-parsed and the keyword column re-split. -/
structure OutRow where
  date : Option PdTimestamp
  title : List Char
  content : List Char
  sentiment_score : ℚ
  mood_category : List Char
  keywords : List (List Char)
deriving DecidableEq

/-- The post-processing `get_all_entries` and friends apply to each selected
row. -/
def outOf (r : DbRow) : OutRow :=
  ⟨pdToDatetimeStored r.date, r.title, r.content, r.sentiment_score,
   r.mood_category, keywordsSplit r.keywords⟩

/-- `get_all_entries` (`db.py` lines 134–160): all rows, `ORDER BY date
DESC`, date column re-parsed, keywords re-split.  The SQL engine does not
specify an order among equal dates; the model uses a concrete (insertion)
sort, and no theorem relies on its tie order. -/
def get_all_entries (db : List DbRow) : List OutRow :=
  (List.insertionSort descByDate db).map outOf

/-- `get_entries_by_date_range` (`db.py` lines 162–193):
`WHERE date BETWEEN ? AND ?` — an inclusive comparison of the TEXT `date`
column against the two string parameters in the BINARY collation — followed
by `ORDER BY date DESC` and the same post-processing. -/
def get_entries_by_date_range (start_date end_date : List Char) (db : List DbRow) : List OutRow :=
  (List.insertionSort descByDate
    (db.filter fun r => textLeB start_date r.date && textLeB r.date end_date)).map outOf

/-- `categorize_mood` (`nlp_utils.py` lines 36–58).  The float thresholds
-0.5, -0.1, 0.1, 0.5 appear only in order comparisons against the score, so
the rational model reflects the float code exactly. -/
def categorize_mood (sentiment_score : ℚ) : List Char :=
  if sentiment_score ≤ -(1/2) then "Very Negative".toList
  else if sentiment_score ≤ -(1/10) then "Negative".toList
  else if sentiment_score ≤ 1/10 then "Neutral".toList
  else if sentiment_score ≤ 1/2 then "Positive".toList
  else "Very Positive".toList

/-- Split at every character satisfying `p`, keeping empty pieces. -/
def splitOnP (p : Char → Bool) : List Char → List (List Char)
  | [] => [[]]
  | x :: xs =>
    match splitOnP p xs with
    | h :: t => if p x then [] :: h :: t else (x :: h) :: t
    | [] => [[x]]

/-- Python `s.split()` with no argument: split on whitespace runs, with no
empty pieces. -/
def pySplitWs (s : List Char) : List (List Char) :=
  (splitOnP pyIsSpace s).filter (fun w => !w.isEmpty)

/-- Python `s.lower()` (the texts considered are ASCII, where Lean's
character `toLower` agrees with Python's). -/
def pyLower (s : List Char) : List Char := s.map Char.toLower

/-- `re.sub(r'[^a-zA-Z]', '', word)`: keep only ASCII letters. -/
def pyClean (w : List Char) : List Char := w.filter isAsciiLetter

/-- Python `str.isalpha`: nonempty and all letters.  (A cleaned word contains
only ASCII letters, so the Unicode extent of `isalpha` never matters.) -/
def pyIsAlpha (w : List Char) : Bool := !w.isEmpty && w.all isAsciiLetter

/-- The stop-word set of `extract_keywords` (`nlp_utils.py` lines 80–92),
transcribed verbatim. -/
def stopWords : List (List Char) :=
  (["about", "above", "after", "again", "against", "all", "am", "an", "and", "any", "are", "as", "at",
    "be", "because", "been", "before", "being", "below", "between", "both", "but", "by",
    "can", "could", "did", "do", "does", "doing", "down", "during", "each",
    "few", "for", "from", "further", "had", "has", "have", "having", "he", "her", "here", "hers", "herself",
    "him", "himself", "his", "how", "if", "in", "into", "is", "it", "its", "itself",
    "just", "me", "more", "most", "my", "myself", "no", "nor", "not", "now", "of", "off", "on", "once",
    "only", "or", "other", "our", "ours", "ourselves", "out", "over", "own", "same", "she", "should", "so",
    "some", "still", "such", "than", "that", "the", "their", "theirs", "them", "themselves", "then", "there",
    "these", "they", "this", "those", "through", "to", "too", "under", "until", "up", "very", "was", "we",
    "were", "what", "when", "where", "which", "while", "who", "whom", "why", "will", "with", "would",
    "you", "your", "yours", "yourself", "yourselves", "like", "im", "ive", "also", "get", "got"] :
   List String).map String.toList

/-- The `cleaned_words` accumulation loop of `extract_keywords`
(`nlp_utils.py` lines 95–104): lowercase, split on whitespace, strip
non-letters from each token, keep the tokens that are long enough, not stop
words, and alphabetic. -/
def keywordSurvivors (text : List Char) (min_length : Nat) : List (List Char) :=
  ((pySplitWs (pyLower text)).map pyClean).filter
    (fun w => min_length ≤ w.length && !stopWords.contains w && pyIsAlpha w)

/-- `extract_keywords` (`nlp_utils.py` lines 61–107): the surviving tokens in
original order, truncated to the first `max_words`. -/
def extract_keywords (text : List Char) (min_length max_words : Nat) : List (List Char) :=
  (keywordSurvivors text min_length).take max_words

/-- One row of the analyzed dataframe, restricted to the columns
`get_mood_statistics` reads. -/
structure AnalyzedRow where
  date : PdTimestamp
  sentiment_score : ℚ
  mood_category : List Char
deriving DecidableEq

/-- The distinct values of maximal multiplicity, in first-occurrence order —
the multiset underlying `Series.mode()`. -/
def modeCandidates (xs : List (List Char)) : List (List Char) :=
  xs.dedup.filter (fun v => xs.count v = ((xs.map (fun w => xs.count w)).foldr Nat.max 0))

/-- The least element in the BINARY string order.  `Series.mode()` returns
its result sorted ascending, so `.iloc[0]` is the lexicographically least
candidate. -/
def lexLeast : List (List Char) → Option (List Char)
  | [] => none
  | h :: t => some (t.foldl (fun acc v => if textLtB v acc then v else acc) h)

/-- Days from the civil epoch for a proleptic-Gregorian date (the standard
era/year-of-era computation); used only to difference two dates, as
`(max - min).days` does. -/
def daysFromCivil (y m d : Nat) : Nat :=
  let yy := if m ≤ 2 then y - 1 else y
  let era := yy / 400
  let yoe := yy % 400
  let mp := (m + 9) % 12
  let doy := (153 * mp + 2) / 5 + d - 1
  let doe := yoe * 365 + yoe / 4 - yoe / 100 + doy
  era * 146097 + doe

/-- `df['date'].max()` / `.min()` over a nonempty column. -/
def foldDate (pick : PdTimestamp → PdTimestamp → Bool) (h : PdTimestamp)
    (t : List PdTimestamp) : PdTimestamp :=
  t.foldl (fun acc x => if pick acc x then x else acc) h

/-- `get_mood_statistics` (`nlp_utils.py` lines 146–173): entry count, mean
sentiment, `mode().iloc[0]` of the mood column, and the date span in days;
`(0, 0.0, "N/A", 0)` on an empty dataframe.  (On a nonempty dataframe the
mode-candidate list is nonempty, so the `getD` default is never used.) -/
def get_mood_statistics (df : List AnalyzedRow) : Nat × ℚ × List Char × Nat :=
  match df with
  | [] => (0, 0, "N/A".toList, 0)
  | h :: t =>
    ((h :: t).length,
     ((h :: t).map (fun r => r.sentiment_score)).sum / ((h :: t).length : ℚ),
     (lexLeast (modeCandidates ((h :: t).map (fun r => r.mood_category)))).getD "N/A".toList,
     daysFromCivil (foldDate dateLe h.date (t.map (fun r => r.date))).year
         (foldDate dateLe h.date (t.map (fun r => r.date))).month
         (foldDate dateLe h.date (t.map (fun r => r.date))).day -
       daysFromCivil (foldDate (fun a b => dateLe b a) h.date (t.map (fun r => r.date))).year
         (foldDate (fun a b => dateLe b a) h.date (t.map (fun r => r.date))).month
         (foldDate (fun a b => dateLe b a) h.date (t.map (fun r => r.date))).day)

/-- Written from the claim's words, for comparison with the code: the
variant of the hash-stripping step that also accepts a hyphen separator
(`strips a trailing 32-character lowercase hex export-hash suffix ...
whether that suffix is hyphen-separated or space-separated`). -/
def hexStripHyphenOrSpace (s : List Char) : List Char :=
  let r := s.reverse
  let h := r.take 32
  match r.drop 32 with
  | [] => s
  | w :: rest =>
    if h.length = 32 && h.all isHexLower && (pyIsSpace w || w = '-') then rest.reverse else s

/-- Written from the claim's words: filename cleaning that strips the
extension and a hyphen- or space-separated export hash. -/
def claimCleanFilename (s : List Char) : List Char :=
  pyStrip (hexStripHyphenOrSpace (splitextBase s))

/-- Written from the claim's words, for comparison with the code: among the
categories sharing the maximum count, the one occurring first in the
collection's insertion order (`modeCandidates` lists them in
first-occurrence order). -/
def modeFirstEncountered (xs : List (List Char)) : Option (List Char) :=
  (modeCandidates xs).head?

/-! ## Claim theorems -/

/-- C10: an entry lacking the optional columns is inserted successfully, and
the stored row carries the fixed defaults: empty title, score `0.0`, mood
`"Neutral"`, empty keyword string — both when the keyword column is absent
and when it holds an empty list. -/
theorem C10_insert_defaults (db : List DbRow) (dv : PyDateVal) (content : List Char) :
    insert_entries db [⟨dv, none, content, none, none, none⟩] =
      (db ++ [⟨dv.pyStr, [], content, 0, "Neutral".toList, []⟩], 1) ∧
    insert_entries db [⟨dv, none, content, none, none, some []⟩] =
      (db ++ [⟨dv.pyStr, [], content, 0, "Neutral".toList, []⟩], 1) :=
  ⟨rfl, rfl⟩

/-- C9: evaluating `get_entry_details` at a document whose level-1 heading is
not the first line shows that the blank line immediately following the
heading is NOT dropped from the joined body (the claim, and the source's own
comment `If the next line is blank, skip it`, say it is dropped: the content
would then be `"a\nb"`). -/
theorem C9_blank_line_kept :
    get_entry_details "x.md".toList "a\n# T\n\nb".toList =
      ⟨none, ['T'], "a\n\nb".toList⟩ ∧
    "a\n\nb".toList ≠ "a\nb".toList := by
  constructor
  · rfl
  · decide

/-- C2 counterexample: a directory containing one file named
`13 40 2025.md` produces a nonempty first-stage entry list (pattern 2
extracts the date string `2025-13-40`), the second-stage date validation
drops every row, and the function nevertheless reaches the success path
(`some []`, i.e. the output location is reported) — the claim says zero
entries surviving all filters is a terminal failure. -/
theorem C2_counterexample :
    convert_survivors (some [("13 40 2025.md".toList, "hello".toList)]) = some [] ∧
    firstStageEntries [("13 40 2025.md".toList, "hello".toList)] ≠ [] := by
  constructor
  · rfl
  · decide

/-- C2 (amended): `convert_journal_files` reports a terminal failure exactly
when the source directory is absent or no entry survives the FIRST-stage
extraction; rows dropped by the second-stage date-validity filter do not
cause failure. -/
theorem C2_failure_iff (fs : Option (List (List Char × List Char))) :
    convert_survivors fs = none ↔
      fs = none ∨ ∃ files, fs = some files ∧ firstStageEntries files = [] := by
  cases fs with
  | none => simp [convert_survivors]
  | some files =>
    by_cases h : (firstStageEntries files).isEmpty <;>
      simp_all [convert_survivors, List.isEmpty_iff]

/-- C2 witness: the theorem applied at a concrete input. -/
theorem C2_failure_iff_witness :
    convert_survivors none = none :=
  (C2_failure_iff none).mpr (Or.inl rfl)

/-- C6: `categorize_mood` is total (it is a Lean function) and its
boundaries are closed on the upper side: scores up to and including -0.5 are
Very Negative, then Negative up to -0.1, Neutral up to 0.1, Positive up to
0.5, Very Positive above. -/
theorem C6_categorize_boundaries (p : ℚ) :
    (p ≤ -(1/2) → categorize_mood p = "Very Negative".toList) ∧
    (-(1/2) < p → p ≤ -(1/10) → categorize_mood p = "Negative".toList) ∧
    (-(1/10) < p → p ≤ 1/10 → categorize_mood p = "Neutral".toList) ∧
    (1/10 < p → p ≤ 1/2 → categorize_mood p = "Positive".toList) ∧
    (1/2 < p → categorize_mood p = "Very Positive".toList) := by
  unfold categorize_mood
  refine ⟨fun h => ?_, fun h1 h2 => ?_, fun h1 h2 => ?_, fun h1 h2 => ?_, fun h => ?_⟩ <;>
    split_ifs <;> first | rfl | linarith

/-- C6 witness: the boundary values themselves. -/
theorem C6_categorize_boundaries_witness :
    categorize_mood (-(1/2)) = "Very Negative".toList ∧
    categorize_mood (-(1/10)) = "Negative".toList ∧
    categorize_mood (1/10) = "Neutral".toList ∧
    categorize_mood (1/2) = "Positive".toList ∧
    categorize_mood (50001/100000) = "Very Positive".toList :=
  ⟨(C6_categorize_boundaries _).1 (by norm_num),
   (C6_categorize_boundaries _).2.1 (by norm_num) (by norm_num),
   (C6_categorize_boundaries _).2.2.1 (by norm_num) (by norm_num),
   (C6_categorize_boundaries _).2.2.2.1 (by norm_num) (by norm_num),
   (C6_categorize_boundaries _).2.2.2.2 (by norm_num)⟩

/-- C7: every keyword returned by `extract_keywords` is at least
`min_length` long and is not a stop word; at most `max_words` keywords are
returned; and the result is the first-`max_words` truncation of the
surviving tokens, hence in first-occurrence order. -/
theorem C7_extract_keywords_shape (text : List Char) (minL maxW : Nat) :
    (∀ k ∈ extract_keywords text minL maxW,
        minL ≤ k.length ∧ stopWords.contains k = false) ∧
    (extract_keywords text minL maxW).length ≤ maxW ∧
    extract_keywords text minL maxW = (keywordSurvivors text minL).take maxW ∧
    List.Sublist (extract_keywords text minL maxW) (keywordSurvivors text minL) := by
  refine ⟨fun k hk => ?_, List.length_take_le _ _, rfl, List.take_sublist _ _⟩
  have hk' : k ∈ keywordSurvivors text minL := List.mem_of_mem_take hk
  have hp := (List.mem_filter.mp hk').2
  rw [Bool.and_eq_true, Bool.and_eq_true] at hp
  exact ⟨of_decide_eq_true hp.1.1, by simpa using hp.1.2⟩

/-- C7 witness: the theorem applied to a concrete text and keyword. -/
theorem C7_extract_keywords_shape_witness :
    4 ≤ ("wonderful".toList).length ∧
    stopWords.contains "wonderful".toList = false :=
  (C7_extract_keywords_shape "today was wonderful".toList 4 50).1
    "wonderful".toList (by decide)

/-- C8 counterexample: a filename whose 32-character lowercase-hex export
hash is hyphen-separated.  The code's cleaning step keeps the hash (the
regex separator is `\s` only), while the cleaning the claim describes would
strip it. -/
theorem C8_counterexample :
    cleanFilename "2 27 2022-00112233445566778899aabbccddeeff.md".toList =
      "2 27 2022-00112233445566778899aabbccddeeff".toList ∧
    claimCleanFilename "2 27 2022-00112233445566778899aabbccddeeff.md".toList =
      "2 27 2022".toList ∧
    cleanFilename "2 27 2022-00112233445566778899aabbccddeeff.md".toList ≠
      claimCleanFilename "2 27 2022-00112233445566778899aabbccddeeff.md".toList := by
  refine ⟨rfl, rfl, by decide⟩

/-- C8 (amended): the filename cleaning strips the extension and a trailing
32-character lowercase-hex suffix when (and only when) the suffix is
separated by a whitespace character; what remains is the stripped stem. -/
theorem C8_space_hash_stripped (stem hx : List Char) (w : Char)
    (hw : pyIsSpace w = true) (hlen : hx.length = 32)
    (hhex : hx.all isHexLower = true) :
    cleanFilename (stem ++ w :: (hx ++ ".md".toList)) = pyStrip stem := by
  have hwne : w ≠ '.' := by
    intro h
    subst h
    simp [pyIsSpace] at hw
  have hrev : (stem ++ w :: (hx ++ ".md".toList)).reverse =
      'd' :: 'm' :: '.' :: (hx.reverse ++ w :: stem.reverse) := by
    simp [List.reverse_append]
  have hsplit : splitextBase (stem ++ w :: (hx ++ ".md".toList)) = stem ++ w :: hx := by
    unfold splitextBase
    rw [hrev]
    have hdrop : List.dropWhile (· ≠ '.')
        ('d' :: 'm' :: '.' :: (hx.reverse ++ w :: stem.reverse)) =
        '.' :: (hx.reverse ++ w :: stem.reverse) := by
      simp [List.dropWhile]
    simp only [hdrop]
    have hany : (hx.reverse ++ w :: stem.reverse).any (· ≠ '.') = true := by
      rw [List.any_eq_true]
      exact ⟨w, by simp, by simp [hwne]⟩
    simp [hany, List.reverse_append]
    intro _ hwdot
    exact absurd hwdot hwne
  have hlenrev : hx.reverse.length = 32 := by simp [hlen]
  have hstrip : hexStrip (stem ++ w :: hx) = stem := by
    unfold hexStrip
    have hrev2 : (stem ++ w :: hx).reverse = hx.reverse ++ w :: stem.reverse := by
      simp [List.reverse_append]
    rw [hrev2]
    have htake : (hx.reverse ++ w :: stem.reverse).take 32 = hx.reverse := by
      rw [← hlenrev, List.take_left]
    have hdrop32 : (hx.reverse ++ w :: stem.reverse).drop 32 = w :: stem.reverse := by
      rw [← hlenrev, List.drop_left]
    simp only [htake, hdrop32]
    have hall : hx.reverse.all isHexLower = true := by
      rw [List.all_eq_true] at hhex ⊢
      intro c hc
      exact hhex c (List.mem_reverse.mp hc)
    simp [hlenrev, hall, hw]
  unfold cleanFilename
  rw [hsplit, hstrip]

/-- C8 witness: the theorem applied to a concrete space-separated hash. -/
theorem C8_space_hash_stripped_witness :
    cleanFilename ("x".toList ++ ' ' ::
        ("00112233445566778899aabbccddeeff".toList ++ ".md".toList)) =
      pyStrip "x".toList :=
  C8_space_hash_stripped "x".toList "00112233445566778899aabbccddeeff".toList ' '
    (by decide) (by decide) (by decide)

/-- A date string accepted by the second-stage parse is calendar-valid. -/
theorem pdToDatetime_dateOk {s : List Char} {t : PdTimestamp}
    (h : pdToDatetime s = some t) : dateOk t.year t.month t.day = true := by
  unfold pdToDatetime at h
  cases hp : parseDashTriple s with
  | none => rw [hp] at h; exact absurd h (by simp)
  | some ymd =>
    rw [hp] at h
    obtain ⟨y, m, d⟩ := ymd
    dsimp only at h
    by_cases hc : (dateOk y m d && tsBoundsOk y m d) = true
    · rw [if_pos hc] at h
      cases h
      rw [Bool.and_eq_true] at hc
      exact hc.1
    · rw [if_neg hc] at h
      exact absurd h (by simp)

/-- Every row surviving the second stage has a calendar-valid date. -/
theorem secondStage_dateOk {r : ConvRow} {es : List RawEntry}
    (h : r ∈ secondStage es) : dateOk r.date.year r.date.month r.date.day = true := by
  unfold secondStage at h
  obtain ⟨e, _, hmap⟩ := List.mem_filterMap.mp h
  obtain ⟨t, ht, hr⟩ := Option.map_eq_some'.mp hmap
  subst hr
  exact pdToDatetime_dateOk ht

/-- A successful conversion yields exactly the second-stage survivors. -/
theorem convert_survivors_some {files : List (List Char × List Char)}
    {survivors : List ConvRow}
    (h : convert_survivors (some files) = some survivors) :
    survivors = secondStage (firstStageEntries files) := by
  unfold convert_survivors at h
  by_cases he : (firstStageEntries files).isEmpty <;> simp [he] at h
  exact h.symm

/-- C1 counterexample: two files with the same date (`2025-01-10`) and
different titles.  The output in which the rows appear swapped satisfies the
sort contract (it is a date-sorted permutation of the survivors), yet the two
equal-date rows appear in it in the opposite of their production order — so
the stable-tie-order property the claim asserts does not hold of every
admissible output of the default (non-stable) quicksort. -/
theorem C1_counterexample :
    convertOutput
      (some [("1 10 25 a.md".toList, "x".toList), ("1 10 25 b.md".toList, "y".toList)])
      [⟨⟨2025, 1, 10⟩, ['b'], ['y']⟩, ⟨⟨2025, 1, 10⟩, ['a'], ['x']⟩] ∧
    (⟨⟨2025, 1, 10⟩, ['a'], ['x']⟩ : ConvRow).date =
      (⟨⟨2025, 1, 10⟩, ['b'], ['y']⟩ : ConvRow).date ∧
    List.Sublist [(⟨⟨2025, 1, 10⟩, ['a'], ['x']⟩ : ConvRow), ⟨⟨2025, 1, 10⟩, ['b'], ['y']⟩]
      ((convert_survivors
        (some [("1 10 25 a.md".toList, "x".toList), ("1 10 25 b.md".toList, "y".toList)])).getD []) ∧
    ¬ List.Sublist [(⟨⟨2025, 1, 10⟩, ['a'], ['x']⟩ : ConvRow), ⟨⟨2025, 1, 10⟩, ['b'], ['y']⟩]
      [⟨⟨2025, 1, 10⟩, ['b'], ['y']⟩, ⟨⟨2025, 1, 10⟩, ['a'], ['x']⟩] := by
  refine ⟨⟨[⟨⟨2025, 1, 10⟩, ['a'], ['x']⟩, ⟨⟨2025, 1, 10⟩, ['b'], ['y']⟩], rfl,
    List.Perm.swap _ _ _, by decide⟩, rfl, by decide, by decide⟩

/-- C1 (amended): every admissible output of the conversion is sorted
ascending by date and is a permutation of the surviving (second-stage) rows,
all of which carry calendar-valid dates; the relative order of equal-date
rows is not specified, because the sort requests the library's default
non-stable kind. -/
theorem C1_sorted_permutation (fs : Option (List (List Char × List Char)))
    (rows : List ConvRow) (h : convertOutput fs rows) :
    rows.Pairwise (fun a b => dateLe a.date b.date = true) ∧
    (∃ survivors, convert_survivors fs = some survivors ∧ rows.Perm survivors) ∧
    ∀ r ∈ rows, dateOk r.date.year r.date.month r.date.day = true := by
  obtain ⟨survivors, hconv, hperm, hsorted⟩ := h
  refine ⟨hsorted, ⟨survivors, hconv, hperm⟩, fun r hr => ?_⟩
  have hr' : r ∈ survivors := hperm.mem_iff.mp hr
  cases fs with
  | none => simp [convert_survivors] at hconv
  | some files =>
    rw [convert_survivors_some hconv] at hr'
    exact secondStage_dateOk hr'

/-- C1 witness: the theorem applied to the two-file input above with the
identity (already sorted) output. -/
theorem C1_sorted_permutation_witness :
    ([⟨⟨2025, 1, 10⟩, ['a'], ['x']⟩, ⟨⟨2025, 1, 10⟩, ['b'], ['y']⟩] :
        List ConvRow).Pairwise (fun a b => dateLe a.date b.date = true) ∧
    (∃ survivors,
      convert_survivors
        (some [("1 10 25 a.md".toList, "x".toList), ("1 10 25 b.md".toList, "y".toList)]) =
          some survivors ∧
      ([⟨⟨2025, 1, 10⟩, ['a'], ['x']⟩, ⟨⟨2025, 1, 10⟩, ['b'], ['y']⟩] :
          List ConvRow).Perm survivors) ∧
    ∀ r ∈ ([⟨⟨2025, 1, 10⟩, ['a'], ['x']⟩, ⟨⟨2025, 1, 10⟩, ['b'], ['y']⟩] : List ConvRow),
      dateOk r.date.year r.date.month r.date.day = true :=
  C1_sorted_permutation
    (some [("1 10 25 a.md".toList, "x".toList), ("1 10 25 b.md".toList, "y".toList)])
    [⟨⟨2025, 1, 10⟩, ['a'], ['x']⟩, ⟨⟨2025, 1, 10⟩, ['b'], ['y']⟩]
    ⟨[⟨⟨2025, 1, 10⟩, ['a'], ['x']⟩, ⟨⟨2025, 1, 10⟩, ['b'], ['y']⟩], rfl,
      List.Perm.refl _, by decide⟩

/-- The BINARY string comparison is irreflexive. -/
theorem textLtB_irrefl (a : List Char) : textLtB a a = false := by
  induction a with
  | nil => rfl
  | cons c cs ih => simp [textLtB, ih]

/-- The BINARY string comparison is asymmetric. -/
theorem textLtB_asymm {a b : List Char} (h : textLtB a b = true) :
    textLtB b a = false := by
  induction a generalizing b with
  | nil =>
    cases b with
    | nil => simpa [textLtB] using h
    | cons d ds => simp [textLtB]
  | cons c cs ih =>
    cases b with
    | nil => simp [textLtB] at h
    | cons d ds =>
      simp only [textLtB] at h ⊢
      rcases lt_trichotomy c d with hcd | hcd | hcd
      · simp [hcd, not_lt.mpr (le_of_lt hcd)]
      · subst hcd
        simp only [lt_irrefl, if_false] at h ⊢
        exact ih h
      · simp [hcd, not_lt.mpr (le_of_lt hcd)] at h

/-- Two strings neither of which precedes the other are equal. -/
theorem textLtB_conn {a b : List Char} (h1 : textLtB a b = false)
    (h2 : textLtB b a = false) : a = b := by
  induction a generalizing b with
  | nil =>
    cases b with
    | nil => rfl
    | cons d ds => simp [textLtB] at h1
  | cons c cs ih =>
    cases b with
    | nil => simp [textLtB] at h2
    | cons d ds =>
      simp only [textLtB] at h1 h2
      rcases lt_trichotomy c d with hcd | hcd | hcd
      · simp [hcd] at h1
      · subst hcd
        simp only [lt_irrefl, if_false] at h1 h2
        rw [ih h1 h2]
      · simp [hcd] at h2

/-- The BINARY string comparison is transitive. -/
theorem textLtB_trans {a b c : List Char} (h1 : textLtB a b = true)
    (h2 : textLtB b c = true) : textLtB a c = true := by
  induction a generalizing b c with
  | nil =>
    cases c with
    | nil =>
      cases b with
      | nil => simpa using h1
      | cons e es => simp [textLtB] at h2
    | cons f fs => simp [textLtB]
  | cons x xs ih =>
    cases b with
    | nil => simp [textLtB] at h1
    | cons e es =>
      cases c with
      | nil => simp [textLtB] at h2
      | cons f fs =>
        simp only [textLtB] at h1 h2 ⊢
        rcases lt_trichotomy x e with hxe | hxe | hxe
        · rcases lt_trichotomy e f with hef | hef | hef
          · simp [lt_trans hxe hef]
          · subst hef
            simp [hxe]
          · simp [hef, not_lt.mpr (le_of_lt hef)] at h2
        · subst hxe
          simp only [lt_irrefl, if_false] at h1
          rcases lt_trichotomy x f with hxf | hxf | hxf
          · simp [hxf]
          · subst hxf
            simp only [lt_irrefl, if_false] at h2 ⊢
            exact ih h1 h2
          · simp [hxf, not_lt.mpr (le_of_lt hxf)] at h2
        · simp [hxe, not_lt.mpr (le_of_lt hxe)] at h1

/-- Reflexivity of the non-strict BINARY comparison. -/
theorem textLeB_refl (a : List Char) : textLeB a a = true := by
  simp [textLeB, textLtB_irrefl]

/-- Totality of the non-strict BINARY comparison. -/
theorem textLeB_total (a b : List Char) :
    textLeB a b = true ∨ textLeB b a = true := by
  by_cases h : textLtB b a = true
  · right
    simp [textLeB, textLtB_asymm h]
  · left
    simp [textLeB, Bool.not_eq_true] at h ⊢
    exact h

/-- Transitivity of the non-strict BINARY comparison. -/
theorem textLeB_trans {a b c : List Char} (h1 : textLeB a b = true)
    (h2 : textLeB b c = true) : textLeB a c = true := by
  simp only [textLeB, Bool.not_eq_true'] at h1 h2 ⊢
  by_contra hca
  rw [Bool.not_eq_false] at hca
  by_cases hbc : textLtB b c = true
  · have hba : textLtB b a = true := textLtB_trans hbc hca
    rw [h1] at hba
    exact Bool.false_ne_true hba
  · have hcb : c = b := textLtB_conn h2 (by simpa using hbc)
    subst hcb
    rw [h1] at hca
    exact Bool.false_ne_true hca

/-- Every element of a list of naturals is bounded by the `foldr max 0`. -/
theorem foldr_max_le_of_mem : ∀ {l : List Nat} {x : Nat}, x ∈ l →
    x ≤ l.foldr Nat.max 0 := by
  intro l
  induction l with
  | nil => intro x hx; cases hx
  | cons y t ih =>
    intro x hx
    rcases List.mem_cons.mp hx with h | h
    · subst h
      exact Nat.le_max_left _ _
    · exact le_trans (ih h) (Nat.le_max_right _ _)

/-- On a nonempty list of positive naturals, `foldr max 0` is attained. -/
theorem foldr_max_mem : ∀ {l : List Nat}, l ≠ [] → (∀ x ∈ l, 0 < x) →
    l.foldr Nat.max 0 ∈ l := by
  intro l
  induction l with
  | nil => intro h _; exact absurd rfl h
  | cons y t ih =>
    intro _ hpos
    cases t with
    | nil =>
      simp [Nat.max_def]
    | cons z t' =>
      by_cases hy : (z :: t').foldr Nat.max 0 ≤ y
      · simp only [List.foldr_cons] at *
        have hmax : y.max (z.max (List.foldr Nat.max 0 t')) = y :=
          Nat.max_eq_left hy
        rw [hmax]
        exact List.mem_cons_self _ _
      · have hm := ih (by simp) (fun x hx => hpos x (List.mem_cons_of_mem _ hx))
        simp only [List.foldr_cons] at *
        have hmax : y.max (z.max (List.foldr Nat.max 0 t')) =
            z.max (List.foldr Nat.max 0 t') :=
          Nat.max_eq_right (le_of_lt (Nat.lt_of_not_le hy))
        rw [hmax]
        exact List.mem_cons_of_mem _ hm

/-- The fold inside `lexLeast` returns a member of the candidate list that is
lexicographically at most every member. -/
theorem lexLeast_fold_spec : ∀ (t : List (List Char)) (h : List Char),
    (t.foldl (fun acc v => if textLtB v acc then v else acc) h) ∈ h :: t ∧
    ∀ w ∈ h :: t,
      textLeB (t.foldl (fun acc v => if textLtB v acc then v else acc) h) w = true := by
  intro t
  induction t with
  | nil =>
    intro h
    refine ⟨List.mem_singleton.mpr rfl, fun w hw => ?_⟩
    rw [List.mem_singleton.mp hw]
    exact textLeB_refl _
  | cons v t ih =>
    intro h
    have step : (if textLtB v h then v else h) = v ∨ (if textLtB v h then v else h) = h := by
      by_cases hvh : textLtB v h = true <;> simp [hvh]
    have hle_h : textLeB (if textLtB v h then v else h) h = true := by
      by_cases hvh : textLtB v h = true
      · simp only [hvh, if_true]
        simp [textLeB, textLtB_asymm hvh]
      · simp only [hvh]
        simpa using textLeB_refl h
    have hle_v : textLeB (if textLtB v h then v else h) v = true := by
      by_cases hvh : textLtB v h = true
      · simp only [hvh, if_true]
        exact textLeB_refl v
      · simp only [hvh, if_false]
        simp only [Bool.not_eq_true] at hvh
        simp [textLeB, hvh]
    obtain ⟨ihmem, ihle⟩ := ih (if textLtB v h then v else h)
    have hres_le : textLeB (List.foldl (fun acc v => if textLtB v acc then v else acc)
        (if textLtB v h then v else h) t) (if textLtB v h then v else h) = true :=
      ihle _ (List.mem_cons_self _ _)
    constructor
    · simp only [List.foldl_cons]
      rcases List.mem_cons.mp ihmem with hcase | hcase
      · rw [hcase]
        rcases step with hs | hs <;> rw [hs]
        · exact List.mem_cons_of_mem _ (List.mem_cons_self _ _)
        · exact List.mem_cons_self _ _
      · exact List.mem_cons_of_mem _ (List.mem_cons_of_mem _ hcase)
    · intro w hw
      simp only [List.foldl_cons]
      rcases List.mem_cons.mp hw with hww | hww
      · rw [hww]
        exact textLeB_trans hres_le hle_h
      · rcases List.mem_cons.mp hww with hwv | hwt
        · rw [hwv]
          exact textLeB_trans hres_le hle_v
        · exact ihle w (List.mem_cons_of_mem _ hwt)

/-- Soundness of the mode-candidate list: members occur in the collection
and attain the maximal count. -/
theorem modeCandidates_sound {xs : List (List Char)} {v : List Char}
    (h : v ∈ modeCandidates xs) :
    v ∈ xs ∧ xs.count v = (xs.map (fun w => xs.count w)).foldr Nat.max 0 := by
  unfold modeCandidates at h
  have h1 := List.mem_filter.mp h
  exact ⟨List.mem_dedup.mp h1.1, of_decide_eq_true h1.2⟩

/-- Completeness of the mode-candidate list. -/
theorem modeCandidates_complete {xs : List (List Char)} {v : List Char}
    (hv : v ∈ xs)
    (hc : xs.count v = (xs.map (fun w => xs.count w)).foldr Nat.max 0) :
    v ∈ modeCandidates xs :=
  List.mem_filter.mpr ⟨List.mem_dedup.mpr hv, decide_eq_true hc⟩

/-- A nonempty collection has at least one mode candidate. -/
theorem modeCandidates_ne_nil {xs : List (List Char)} (h : xs ≠ []) :
    modeCandidates xs ≠ [] := by
  have hmap : (xs.map (fun w => xs.count w)) ≠ [] := by simpa using h
  have hpos : ∀ x ∈ xs.map (fun w => xs.count w), 0 < x := by
    intro x hx
    obtain ⟨w, hw, rfl⟩ := List.mem_map.mp hx
    exact List.count_pos_iff.mpr hw
  obtain ⟨w, hw, heq⟩ := List.mem_map.mp (foldr_max_mem hmap hpos)
  exact List.ne_nil_of_mem (modeCandidates_complete hw heq)

/-- C4 counterexample: two categories tied at count one.  The code returns
the lexicographically least (`Series.mode()` sorts its result and `.iloc[0]`
takes its head), i.e. `"Negative"`, while the first-encountered category in
insertion order is `"Positive"`. -/
theorem C4_counterexample :
    (get_mood_statistics [⟨⟨2025, 1, 1⟩, 0, "Positive".toList⟩,
        ⟨⟨2025, 1, 2⟩, 0, "Negative".toList⟩]).2.2.1 = "Negative".toList ∧
    modeFirstEncountered
      (([⟨⟨2025, 1, 1⟩, 0, "Positive".toList⟩,
         ⟨⟨2025, 1, 2⟩, 0, "Negative".toList⟩] : List AnalyzedRow).map
        (fun r => r.mood_category)) = some "Positive".toList ∧
    ("Negative".toList : List Char) ≠ "Positive".toList := by
  refine ⟨by decide, by decide, by decide⟩

/-- C4 (amended): on a nonempty collection, the returned `mode_category`
occurs in the collection, attains the maximal count, and among the
categories sharing that maximal count it is the lexicographically least (not
the first-encountered one). -/
theorem C4_mode_lex_least (df : List AnalyzedRow) (h : df ≠ []) :
    (get_mood_statistics df).2.2.1 ∈ df.map (fun r => r.mood_category) ∧
    (∀ v ∈ df.map (fun r => r.mood_category),
      (df.map (fun r => r.mood_category)).count v ≤
        (df.map (fun r => r.mood_category)).count ((get_mood_statistics df).2.2.1)) ∧
    (∀ v ∈ df.map (fun r => r.mood_category),
      (df.map (fun r => r.mood_category)).count v =
        (df.map (fun r => r.mood_category)).count ((get_mood_statistics df).2.2.1) →
      textLeB ((get_mood_statistics df).2.2.1) v = true) := by
  cases df with
  | nil => exact absurd rfl h
  | cons hd tl =>
    have hmoodsne : (hd :: tl).map (fun r => r.mood_category) ≠ [] := by simp
    have hcne := modeCandidates_ne_nil hmoodsne
    cases hmc : modeCandidates ((hd :: tl).map (fun r => r.mood_category)) with
    | nil => exact absurd hmc hcne
    | cons c ct =>
      have hval : (get_mood_statistics (hd :: tl)).2.2.1 =
          ct.foldl (fun acc v => if textLtB v acc then v else acc) c := by
        have hmc' : modeCandidates
            (hd.mood_category :: tl.map (fun r => r.mood_category)) = c :: ct := by
          simpa using hmc
        simp [get_mood_statistics, hmc', lexLeast]
      obtain ⟨hmem, hle⟩ := lexLeast_fold_spec ct c
      rw [← hmc] at hmem hle
      obtain ⟨hvmem, hvcount⟩ := modeCandidates_sound hmem
      refine ⟨by rw [hval]; exact hvmem, ?_, ?_⟩
      · intro v hv
        rw [hval, hvcount]
        exact foldr_max_le_of_mem (List.mem_map.mpr ⟨v, hv, rfl⟩)
      · intro v hv hcnt
        rw [hval] at hcnt ⊢
        have hvc : v ∈ modeCandidates ((hd :: tl).map (fun r => r.mood_category)) :=
          modeCandidates_complete hv (by rw [hcnt, hvcount])
        exact hle v hvc

/-- C4 witness: the theorem applied to a singleton collection. -/
theorem C4_mode_lex_least_witness :
    (get_mood_statistics [⟨⟨2025, 1, 1⟩, 0, "Neutral".toList⟩]).2.2.1 ∈
      ([⟨⟨2025, 1, 1⟩, 0, "Neutral".toList⟩] : List AnalyzedRow).map
        (fun r => r.mood_category) ∧
    (∀ v ∈ ([⟨⟨2025, 1, 1⟩, 0, "Neutral".toList⟩] : List AnalyzedRow).map
        (fun r => r.mood_category),
      (([⟨⟨2025, 1, 1⟩, 0, "Neutral".toList⟩] : List AnalyzedRow).map
          (fun r => r.mood_category)).count v ≤
        (([⟨⟨2025, 1, 1⟩, 0, "Neutral".toList⟩] : List AnalyzedRow).map
          (fun r => r.mood_category)).count
          ((get_mood_statistics [⟨⟨2025, 1, 1⟩, 0, "Neutral".toList⟩]).2.2.1)) ∧
    (∀ v ∈ ([⟨⟨2025, 1, 1⟩, 0, "Neutral".toList⟩] : List AnalyzedRow).map
        (fun r => r.mood_category),
      (([⟨⟨2025, 1, 1⟩, 0, "Neutral".toList⟩] : List AnalyzedRow).map
          (fun r => r.mood_category)).count v =
        (([⟨⟨2025, 1, 1⟩, 0, "Neutral".toList⟩] : List AnalyzedRow).map
          (fun r => r.mood_category)).count
          ((get_mood_statistics [⟨⟨2025, 1, 1⟩, 0, "Neutral".toList⟩]).2.2.1) →
      textLeB ((get_mood_statistics [⟨⟨2025, 1, 1⟩, 0, "Neutral".toList⟩]).2.2.1) v =
        true) :=
  C4_mode_lex_least [⟨⟨2025, 1, 1⟩, 0, "Neutral".toList⟩] (by simp)

/-- The decimal digit characters: code points, digit-class membership, and
distinctness from the separators. -/
theorem digitChar_facts : ∀ d, d < 10 →
    (Nat.digitChar d).toNat = 48 + d ∧ isDigitChar (Nat.digitChar d) = true ∧
    Nat.digitChar d ≠ '-' ∧ Nat.digitChar d ≠ ' ' := by decide

/-- Order on decimal digit characters mirrors order on digits. -/
theorem digitChar_lt_iff : ∀ a, a < 10 → ∀ b, b < 10 →
    ((Nat.digitChar a < Nat.digitChar b) ↔ a < b) := by decide

/-- Equality on decimal digit characters mirrors equality on digits. -/
theorem digitChar_inj : ∀ a, a < 10 → ∀ b, b < 10 →
    ((Nat.digitChar a = Nat.digitChar b) ↔ a = b) := by decide

/-- The two-digit rendering consists of digit characters distinct from the
separators. -/
theorem iso2_chars {n : Nat} : ∀ c ∈ iso2 n,
    isDigitChar c = true ∧ c ≠ '-' ∧ c ≠ ' ' := by
  intro c hc
  have h1 : n / 10 % 10 < 10 := Nat.mod_lt _ (by norm_num)
  have h2 : n % 10 < 10 := Nat.mod_lt _ (by norm_num)
  simp only [iso2, List.mem_cons, List.not_mem_nil, or_false] at hc
  rcases hc with rfl | rfl
  · exact ⟨(digitChar_facts _ h1).2.1, (digitChar_facts _ h1).2.2⟩
  · exact ⟨(digitChar_facts _ h2).2.1, (digitChar_facts _ h2).2.2⟩

/-- Parsing back the two-digit rendering. -/
theorem digitsToNat_iso2 {n : Nat} (h : n < 100) : digitsToNat (iso2 n) = n := by
  have h1 : n / 10 % 10 < 10 := Nat.mod_lt _ (by norm_num)
  have h2 : n % 10 < 10 := Nat.mod_lt _ (by norm_num)
  have f1 := (digitChar_facts _ h1).1
  have f2 := (digitChar_facts _ h2).1
  simp only [digitsToNat, iso2, List.foldl, f1, f2]
  omega

/-- Folding the digit-value accumulator over a two-digit rendering. -/
theorem foldl_digits_iso2 (v : Nat) {n : Nat} (h : n < 100) :
    List.foldl (fun a c => 10 * a + (c.toNat - 48)) v (iso2 n) = 100 * v + n := by
  have h1 : n / 10 % 10 < 10 := Nat.mod_lt _ (by norm_num)
  have h2 : n % 10 < 10 := Nat.mod_lt _ (by norm_num)
  have f1 := (digitChar_facts _ h1).1
  have f2 := (digitChar_facts _ h2).1
  simp only [iso2, List.foldl, f1, f2]
  omega

/-- Parsing back the four-digit rendering. -/
theorem digitsToNat_iso4 {n : Nat} (h : n < 10000) : digitsToNat (iso4 n) = n := by
  unfold iso4 digitsToNat
  rw [List.foldl_append]
  have h1 : n / 100 < 100 := by omega
  have h2 : n % 100 < 100 := Nat.mod_lt _ (by norm_num)
  rw [show List.foldl (fun a c => 10 * a + (c.toNat - 48)) 0 (iso2 (n / 100)) =
      digitsToNat (iso2 (n / 100)) from rfl]
  rw [digitsToNat_iso2 h1, foldl_digits_iso2 _ h2]
  omega

/-- `splitOnChar` never returns the empty list of pieces. -/
theorem splitOnChar_ne_nil (sep : Char) : ∀ s : List Char, splitOnChar sep s ≠ [] := by
  intro s
  induction s with
  | nil => simp [splitOnChar]
  | cons c cs ih =>
    unfold splitOnChar
    cases hcs : splitOnChar sep cs with
    | nil => simp
    | cons h t => by_cases hc : c = sep <;> simp [hc]

/-- Splitting a separator-free string yields one piece. -/
theorem splitOnChar_no_sep {sep : Char} : ∀ {x : List Char},
    (∀ c ∈ x, c ≠ sep) → splitOnChar sep x = [x] := by
  intro x
  induction x with
  | nil => intro _; rfl
  | cons c cs ih =>
    intro h
    unfold splitOnChar
    rw [ih (fun d hd => h d (List.mem_cons_of_mem _ hd))]
    simp [h c (List.mem_cons_self _ _)]

/-- One unfolding step of `splitOnChar`. -/
theorem splitOnChar_cons (sep x : Char) (xs : List Char) :
    splitOnChar sep (x :: xs) =
      match splitOnChar sep xs with
      | h :: t => if x = sep then [] :: h :: t else (x :: h) :: t
      | [] => [[x]] := rfl

/-- Splitting across the first separator. -/
theorem splitOnChar_append {sep : Char} : ∀ {x : List Char} (rest : List Char),
    (∀ c ∈ x, c ≠ sep) →
    splitOnChar sep (x ++ sep :: rest) = x :: splitOnChar sep rest := by
  intro x
  induction x with
  | nil =>
    intro rest _
    simp only [List.nil_append]
    rw [splitOnChar_cons]
    cases hr : splitOnChar sep rest with
    | nil => exact absurd hr (splitOnChar_ne_nil sep rest)
    | cons h t => simp
  | cons c cs ih =>
    intro rest h
    simp only [List.cons_append]
    rw [splitOnChar_cons, ih rest (fun d hd => h d (List.mem_cons_of_mem _ hd))]
    simp [h c (List.mem_cons_self _ _)]

/-- A representable, calendar-valid timestamp has a four-digit year and
two-digit month and day. -/
theorem tsOk_bounds {t : PdTimestamp} (h : tsOk t = true) :
    1000 ≤ t.year ∧ t.year < 10000 ∧ t.month < 100 ∧ t.day < 100 := by
  unfold tsOk dateOk tsBoundsOk daysInMonth at h
  simp only [Bool.and_eq_true, decide_eq_true_eq, Bool.or_eq_true] at h
  split_ifs at h <;> omega

/-- The four-digit rendering consists of digit characters distinct from the
separators. -/
theorem iso4_chars {n : Nat} : ∀ c ∈ iso4 n,
    isDigitChar c = true ∧ c ≠ '-' ∧ c ≠ ' ' := by
  intro c hc
  unfold iso4 at hc
  rcases List.mem_append.mp hc with hc | hc
  · exact iso2_chars c hc
  · exact iso2_chars c hc

/-- No space character occurs in an ISO date rendering. -/
theorem isoRender_no_space {t : PdTimestamp} : ∀ c ∈ isoRender t, c ≠ ' ' := by
  intro c hc
  unfold isoRender at hc
  rcases List.mem_append.mp hc with hc | hc
  · exact (iso4_chars c hc).2.2
  · rcases List.mem_cons.mp hc with rfl | hc
    · decide
    · rcases List.mem_append.mp hc with hc | hc
      · exact (iso2_chars c hc).2.2
      · rcases List.mem_cons.mp hc with rfl | hc
        · decide
        · exact (iso2_chars c hc).2.2

/-- The ISO rendering of a valid timestamp parses back to it. -/
theorem parseDashTriple_iso {t : PdTimestamp} (h : tsOk t = true) :
    parseDashTriple (isoRender t) = some (t.year, t.month, t.day) := by
  obtain ⟨hy1, hy2, hm, hd⟩ := tsOk_bounds h
  have hiso4 : ∀ c ∈ iso4 t.year, c ≠ '-' := fun c hc => (iso4_chars c hc).2.1
  unfold isoRender parseDashTriple
  rw [splitOnChar_append _ hiso4,
      splitOnChar_append _ (fun c hc => (iso2_chars c hc).2.1),
      splitOnChar_no_sep (fun c hc => (iso2_chars c hc).2.1)]
  have hall4 : (iso4 t.year).all isDigitChar = true := by
    rw [List.all_eq_true]
    exact fun c hc => (iso4_chars c hc).1
  have hall2m : (iso2 t.month).all isDigitChar = true := by
    rw [List.all_eq_true]
    exact fun c hc => (iso2_chars c hc).1
  have hall2d : (iso2 t.day).all isDigitChar = true := by
    rw [List.all_eq_true]
    exact fun c hc => (iso2_chars c hc).1
  have hne4 : (iso4 t.year).isEmpty = false := rfl
  have hne2m : (iso2 t.month).isEmpty = false := rfl
  have hne2d : (iso2 t.day).isEmpty = false := rfl
  simp only [hne4, hne2m, hne2d, hall4, hall2m, hall2d, Bool.not_false, Bool.and_true,
    Bool.true_and, if_true]
  rw [digitsToNat_iso4 hy2, digitsToNat_iso2 hm, digitsToNat_iso2 hd]

/-- `pd.to_datetime` on the ISO rendering of a valid timestamp. -/
theorem pdToDatetime_iso {t : PdTimestamp} (h : tsOk t = true) :
    pdToDatetime (isoRender t) = some t := by
  unfold pdToDatetime
  rw [parseDashTriple_iso h]
  have : (dateOk t.year t.month t.day && tsBoundsOk t.year t.month t.day) = true := h
  simp only [this, if_true]

/-- A stored plain ISO date string parses back to its timestamp. -/
theorem pdToDatetimeStored_iso {t : PdTimestamp} (h : tsOk t = true) :
    pdToDatetimeStored (isoRender t) = some t := by
  have hnosp : ∀ c ∈ isoRender t, c ≠ ' ' := isoRender_no_space
  unfold pdToDatetimeStored
  rw [splitOnChar_no_sep hnosp]
  exact pdToDatetime_iso h

/-- A stored timestamp string (`YYYY-MM-DD 00:00:00`) parses back to its
timestamp. -/
theorem pdToDatetimeStored_ts {t : PdTimestamp} (h : tsOk t = true) :
    pdToDatetimeStored (PyDateVal.ts t).pyStr = some t := by
  have hnosp : ∀ c ∈ isoRender t, c ≠ ' ' := isoRender_no_space
  unfold PyDateVal.pyStr pdToDatetimeStored
  rw [splitOnChar_append _ hnosp]
  rw [show splitOnChar ' ' "00:00:00".toList = ["00:00:00".toList] from rfl]
  simp only [if_true, reduceIte]
  exact pdToDatetime_iso h

/-- BINARY comparison across equal-length prefixes. -/
theorem textLtB_append_eq : ∀ {x y : List Char} (u v : List Char),
    x.length = y.length →
    textLtB (x ++ u) (y ++ v) =
      (textLtB x y || (decide (x = y) && textLtB u v)) := by
  intro x
  induction x with
  | nil =>
    intro y u v h
    cases y with
    | nil => simp [textLtB]
    | cons b bs => simp at h
  | cons a as ih =>
    intro y u v h
    cases y with
    | nil => simp at h
    | cons b bs =>
      simp only [List.cons_append, textLtB]
      rcases lt_trichotomy a b with hab | hab | hab
      · simp [hab, ne_of_lt hab]
      · subst hab
        simp only [lt_irrefl, if_false, List.append_eq]
        rw [ih u v (by simpa using h)]
        by_cases he : as = bs <;> simp [he]
      · simp [not_lt.mpr (le_of_lt hab), hab, (ne_of_lt hab).symm]

/-- The two-digit renderings order like the numbers they render. -/
theorem textLtB_iso2_eq {m n : Nat} (hm : m < 100) (hn : n < 100) :
    textLtB (iso2 m) (iso2 n) = decide (m < n) := by
  have d1 : m / 10 % 10 < 10 := Nat.mod_lt _ (by norm_num)
  have d2 : m % 10 < 10 := Nat.mod_lt _ (by norm_num)
  have d3 : n / 10 % 10 < 10 := Nat.mod_lt _ (by norm_num)
  have d4 : n % 10 < 10 := Nat.mod_lt _ (by norm_num)
  have e1 : m / 10 % 10 = m / 10 := Nat.mod_eq_of_lt (by omega)
  have e3 : n / 10 % 10 = n / 10 := Nat.mod_eq_of_lt (by omega)
  simp only [iso2, textLtB]
  rcases lt_trichotomy (m / 10 % 10) (n / 10 % 10) with hh | hh | hh
  · rw [if_pos ((digitChar_lt_iff _ d1 _ d3).mpr hh)]
    have : m < n := by omega
    simp [this]
  · rw [(digitChar_inj _ d1 _ d3).mpr hh]
    simp only [lt_irrefl, if_false]
    rcases lt_trichotomy (m % 10) (n % 10) with hl | hl | hl
    · rw [if_pos ((digitChar_lt_iff _ d2 _ d4).mpr hl)]
      have : m < n := by omega
      simp [this]
    · rw [(digitChar_inj _ d2 _ d4).mpr hl]
      have : ¬ m < n := by omega
      simp [lt_irrefl, this]
    · rw [if_neg (by rw [digitChar_lt_iff _ d2 _ d4]; omega),
          if_pos ((digitChar_lt_iff _ d4 _ d2).mpr hl)]
      have : ¬ m < n := by omega
      simp [this]
  · rw [if_neg (by rw [digitChar_lt_iff _ d1 _ d3]; omega),
        if_pos ((digitChar_lt_iff _ d3 _ d1).mpr hh)]
    have : ¬ m < n := by omega
    simp [this]

/-- The two-digit rendering is injective below 100. -/
theorem iso2_inj_iff {m n : Nat} (hm : m < 100) (hn : n < 100) :
    (iso2 m = iso2 n) ↔ m = n := by
  constructor
  · intro h
    have := congrArg digitsToNat h
    rwa [digitsToNat_iso2 hm, digitsToNat_iso2 hn] at this
  · intro h
    rw [h]

/-- The four-digit rendering is injective below 10000. -/
theorem iso4_inj_iff {m n : Nat} (hm : m < 10000) (hn : n < 10000) :
    (iso4 m = iso4 n) ↔ m = n := by
  constructor
  · intro h
    have := congrArg digitsToNat h
    rwa [digitsToNat_iso4 hm, digitsToNat_iso4 hn] at this
  · intro h
    rw [h]

/-- The four-digit renderings order like the numbers they render. -/
theorem textLtB_iso4_eq {m n : Nat} (hm : m < 10000) (hn : n < 10000) :
    textLtB (iso4 m) (iso4 n) = decide (m < n) := by
  have b1 : m / 100 < 100 := by omega
  have b2 : m % 100 < 100 := Nat.mod_lt _ (by norm_num)
  have b3 : n / 100 < 100 := by omega
  have b4 : n % 100 < 100 := Nat.mod_lt _ (by norm_num)
  unfold iso4
  rw [@textLtB_append_eq (iso2 (m / 100)) (iso2 (n / 100)) (iso2 (m % 100))
        (iso2 (n % 100)) rfl,
      textLtB_iso2_eq b1 b3, textLtB_iso2_eq b2 b4]
  rw [show decide (iso2 (m / 100) = iso2 (n / 100)) = decide (m / 100 = n / 100) from
    decide_eq_decide.mpr (iso2_inj_iff b1 b3)]
  rcases lt_trichotomy (m / 100) (n / 100) with h | h | h
  · have h2 : m < n := by omega
    simp [h, h2]
  · have h2 : (m % 100 < n % 100) ↔ (m < n) := by omega
    simp [h, h2]
  · have h2 : ¬ m / 100 < n / 100 := by omega
    have h3 : ¬ m < n := by omega
    have h4 : ¬ m / 100 = n / 100 := by omega
    simp [h2, h3, h4]

/-- The ISO renderings of valid timestamps compare like the year-month-day
triples, lexicographically. -/
theorem textLtB_isoRender_eq {a b : PdTimestamp} (ha : tsOk a = true)
    (hb : tsOk b = true) :
    textLtB (isoRender a) (isoRender b) =
      decide ((a.year < b.year) ∨ (a.year = b.year ∧
        ((a.month < b.month) ∨ (a.month = b.month ∧ a.day < b.day)))) := by
  obtain ⟨ha1, ha2, ha3, ha4⟩ := tsOk_bounds ha
  obtain ⟨hb1, hb2, hb3, hb4⟩ := tsOk_bounds hb
  have hcons : ∀ u v : List Char, textLtB ('-' :: u) ('-' :: v) = textLtB u v := by
    intro u v
    simp [textLtB]
  unfold isoRender
  rw [@textLtB_append_eq (iso4 a.year) (iso4 b.year) _ _ rfl,
      textLtB_iso4_eq ha2 hb2,
      show decide (iso4 a.year = iso4 b.year) = decide (a.year = b.year) from
        decide_eq_decide.mpr (iso4_inj_iff ha2 hb2),
      hcons,
      @textLtB_append_eq (iso2 a.month) (iso2 b.month) _ _ rfl,
      textLtB_iso2_eq ha3 hb3,
      show decide (iso2 a.month = iso2 b.month) = decide (a.month = b.month) from
        decide_eq_decide.mpr (iso2_inj_iff ha3 hb3),
      hcons,
      textLtB_iso2_eq ha4 hb4]
  simp

/-- On valid timestamps the stored-text BETWEEN comparison agrees with the
calendar order. -/
theorem textLeB_isoRender_eq_dateLe {a b : PdTimestamp} (ha : tsOk a = true)
    (hb : tsOk b = true) :
    textLeB (isoRender a) (isoRender b) = dateLe a b := by
  unfold textLeB dateLe
  rw [textLtB_isoRender_eq hb ha, ← decide_not]
  split_ifs with h1 h2
  · exact decide_eq_decide.mpr (by omega)
  · exact decide_eq_decide.mpr (by omega)
  · exact decide_eq_decide.mpr (by omega)

instance : IsTotal DbRow descByDate :=
  ⟨fun a b => by
    unfold descByDate
    rcases textLeB_total b.date a.date with h | h
    · exact Or.inl h
    · exact Or.inr h⟩

instance : IsTrans DbRow descByDate :=
  ⟨fun _ _ _ hab hbc => textLeB_trans hbc hab⟩

/-- C3 counterexample: insert one analyzed entry whose `date` column holds
the pandas timestamp 2025-02-01 (stored as `"2025-02-01 00:00:00"`).  The
row carries date `B = 2025-02-01`, and `A = 2025-01-01 ≤ B`, yet the range
query `[A, B]` returns nothing: the TEXT comparison
`"2025-02-01 00:00:00" ≤ "2025-02-01"` fails, so the upper endpoint is not
inclusive for timestamp-stored rows. -/
theorem C3_counterexample :
    dateLe ⟨2025, 1, 1⟩ ⟨2025, 2, 1⟩ = true ∧
    (insert_entries [] [⟨PyDateVal.ts ⟨2025, 2, 1⟩, some ['t'], ['c'], some 0,
        some "Neutral".toList, some []⟩]).1 =
      [⟨(PyDateVal.ts ⟨2025, 2, 1⟩).pyStr, ['t'], ['c'], 0, "Neutral".toList, []⟩] ∧
    pdToDatetimeStored (PyDateVal.ts ⟨2025, 2, 1⟩).pyStr = some ⟨2025, 2, 1⟩ ∧
    pdToDatetime "2025-02-01".toList = some ⟨2025, 2, 1⟩ ∧
    get_entries_by_date_range "2025-01-01".toList "2025-02-01".toList
      (insert_entries [] [⟨PyDateVal.ts ⟨2025, 2, 1⟩, some ['t'], ['c'], some 0,
        some "Neutral".toList, some []⟩]).1 = [] := by
  refine ⟨by decide, rfl, by decide, by decide, rfl⟩

/-- C3 (amended): over a store whose `date` column holds plain ISO
`YYYY-MM-DD` strings of valid dates, the range query returns exactly the
rows whose date `t` satisfies `A ≤ t ≤ B` (both endpoints included), ordered
by date descending.  (Rows stored through a pandas timestamp value get a
`" 00:00:00"` suffix and are excluded at the upper endpoint — see the
counterexample.) -/
theorem C3_range_query (db : List DbRow) (A B : PdTimestamp)
    (hA : tsOk A = true) (hB : tsOk B = true) (hAB : dateLe A B = true)
    (hdb : ∀ r ∈ db, ∃ t, tsOk t = true ∧ r.date = isoRender t) :
    (get_entries_by_date_range (isoRender A) (isoRender B) db).Perm
      ((db.filter fun r =>
        match pdToDatetimeStored r.date with
        | some t => dateLe A t && dateLe t B
        | none => false).map outOf) ∧
    ∃ sortedRows : List DbRow,
      get_entries_by_date_range (isoRender A) (isoRender B) db =
        sortedRows.map outOf ∧
      sortedRows.Pairwise (fun a b => ∃ ta tb,
        pdToDatetimeStored a.date = some ta ∧
        pdToDatetimeStored b.date = some tb ∧ dateLe tb ta = true) := by
  have hfil : db.filter
      (fun r => textLeB (isoRender A) r.date && textLeB r.date (isoRender B)) =
      db.filter (fun r =>
        match pdToDatetimeStored r.date with
        | some t => dateLe A t && dateLe t B
        | none => false) := by
    apply List.filter_congr
    intro r hr
    obtain ⟨t, htOk, hdate⟩ := hdb r hr
    rw [hdate, pdToDatetimeStored_iso htOk, textLeB_isoRender_eq_dateLe hA htOk,
        textLeB_isoRender_eq_dateLe htOk hB]
  constructor
  · unfold get_entries_by_date_range
    rw [hfil]
    exact List.Perm.map outOf (List.perm_insertionSort _ _)
  · refine ⟨List.insertionSort descByDate (db.filter
      (fun r => textLeB (isoRender A) r.date && textLeB r.date (isoRender B))),
      rfl, ?_⟩
    have hsorted := List.sorted_insertionSort descByDate (db.filter
      (fun r => textLeB (isoRender A) r.date && textLeB r.date (isoRender B)))
    apply List.Pairwise.imp_of_mem ?_ hsorted
    intro a b hamem hbmem hab
    have ha' : a ∈ db :=
      (List.mem_filter.mp
        ((List.perm_insertionSort descByDate _).mem_iff.mp hamem)).1
    have hb' : b ∈ db :=
      (List.mem_filter.mp
        ((List.perm_insertionSort descByDate _).mem_iff.mp hbmem)).1
    obtain ⟨ta, htaOk, hda⟩ := hdb a ha'
    obtain ⟨tb, htbOk, hdbb⟩ := hdb b hb'
    refine ⟨ta, tb, by rw [hda]; exact pdToDatetimeStored_iso htaOk,
      by rw [hdbb]; exact pdToDatetimeStored_iso htbOk, ?_⟩
    unfold descByDate at hab
    rw [hda, hdbb, textLeB_isoRender_eq_dateLe htbOk htaOk] at hab
    exact hab

/-- C3 witness: the theorem applied to a one-row ISO-dated store. -/
theorem C3_range_query_witness :
    (get_entries_by_date_range (isoRender ⟨2025, 1, 1⟩) (isoRender ⟨2025, 12, 31⟩)
        [⟨isoRender ⟨2025, 1, 15⟩, [], [], 0, [], []⟩]).Perm
      ((([⟨isoRender ⟨2025, 1, 15⟩, [], [], 0, [], []⟩] : List DbRow).filter fun r =>
        match pdToDatetimeStored r.date with
        | some t => dateLe ⟨2025, 1, 1⟩ t && dateLe t ⟨2025, 12, 31⟩
        | none => false).map outOf) ∧
    ∃ sortedRows : List DbRow,
      get_entries_by_date_range (isoRender ⟨2025, 1, 1⟩) (isoRender ⟨2025, 12, 31⟩)
          [⟨isoRender ⟨2025, 1, 15⟩, [], [], 0, [], []⟩] =
        sortedRows.map outOf ∧
      sortedRows.Pairwise (fun a b => ∃ ta tb,
        pdToDatetimeStored a.date = some ta ∧
        pdToDatetimeStored b.date = some tb ∧ dateLe tb ta = true) :=
  C3_range_query [⟨isoRender ⟨2025, 1, 15⟩, [], [], 0, [], []⟩]
    ⟨2025, 1, 1⟩ ⟨2025, 12, 31⟩ (by decide) (by decide) (by decide)
    (fun r hr => by
      rw [List.mem_singleton.mp hr]
      exact ⟨⟨2025, 1, 15⟩, by decide, rfl⟩)

/-- Splitting the comma-joined form of nonempty comma-free tokens recovers
the tokens. -/
theorem splitOnChar_intercalate : ∀ (ks : List (List Char)), ks ≠ [] →
    (∀ k ∈ ks, ∀ c ∈ k, c ≠ ',') →
    splitOnChar ',' (List.intercalate [','] ks) = ks := by
  intro ks
  induction ks with
  | nil => intro h _; exact absurd rfl h
  | cons k t ih =>
    intro _ hsep
    cases t with
    | nil =>
      rw [show List.intercalate [','] [k] = k from by simp [List.intercalate]]
      exact splitOnChar_no_sep (hsep k (List.mem_cons_self _ _))
    | cons k2 t2 =>
      rw [show List.intercalate [','] (k :: k2 :: t2) =
            k ++ ',' :: List.intercalate [','] (k2 :: t2) from by
          simp [List.intercalate, List.intersperse_cons_cons],
        splitOnChar_append _ (hsep k (List.mem_cons_self _ _)),
        ih (by simp) (fun k' hk' => hsep k' (List.mem_cons_of_mem _ hk'))]

/-- The keyword column round-trips through the comma join and split. -/
theorem keywords_roundtrip (ks : List (List Char))
    (hks : ∀ k ∈ ks, k ≠ [] ∧ ∀ c ∈ k, c ≠ ',') :
    keywordsSplit (keywordsJoin (some ks)) = ks := by
  cases ks with
  | nil => rfl
  | cons k t =>
    have hkne : k ≠ [] := (hks k (List.mem_cons_self _ _)).1
    have hjoin : keywordsJoin (some (k :: t)) = List.intercalate [','] (k :: t) := rfl
    have hne : (List.intercalate [','] (k :: t)).isEmpty = false := by
      cases t with
      | nil =>
        rw [show List.intercalate [','] [k] = k from by simp [List.intercalate]]
        cases k with
        | nil => exact absurd rfl hkne
        | cons c cs => rfl
      | cons k2 t2 =>
        rw [show List.intercalate [','] (k :: k2 :: t2) =
              k ++ ',' :: List.intercalate [','] (k2 :: t2) from by
            simp [List.intercalate, List.intersperse_cons_cons]]
        cases k with
        | nil => rfl
        | cons c cs => rfl
    unfold keywordsSplit
    rw [hjoin, hne]
    simp only [Bool.false_eq_true, if_false]
    exact splitOnChar_intercalate (k :: t) (by simp)
      (fun k' hk' => (hks k' hk').2)

/-- C5: inserting one fully-populated analyzed entry into an empty store and
reading it back yields a record with the same date, title, content,
sentiment score, mood category, and keyword list (re-derived from the
comma-joined stored form). -/
theorem C5_insert_roundtrip (e : InsEntry) (t : PdTimestamp) (ti : List Char)
    (q : ℚ) (mc : List Char) (ks : List (List Char))
    (hdate : e.date = PyDateVal.ts t) (hts : tsOk t = true)
    (hti : e.title = some ti) (hsc : e.sentiment_score = some q)
    (hmc : e.mood_category = some mc) (hke : e.keywords = some ks)
    (hks : ∀ k ∈ ks, k ≠ [] ∧ ∀ c ∈ k, c ≠ ',') :
    get_all_entries (insert_entries [] [e]).1 =
      [⟨some t, ti, e.content, q, mc, ks⟩] := by
  unfold insert_entries get_all_entries
  simp only [List.nil_append, List.map_cons, List.map_nil]
  rw [show List.insertionSort descByDate [rowOf e] = [rowOf e] from rfl]
  simp only [List.map_cons, List.map_nil]
  unfold outOf rowOf
  rw [hdate, hti, hsc, hmc, hke]
  simp only [Option.getD_some]
  rw [pdToDatetimeStored_ts hts, keywords_roundtrip ks hks]

/-- C5 witness: the theorem applied to a concrete entry. -/
theorem C5_insert_roundtrip_witness :
    get_all_entries (insert_entries []
      [⟨PyDateVal.ts ⟨2025, 1, 10⟩, some "Morning".toList, "happy day".toList,
        some (3/10), some "Positive".toList,
        some ["happy".toList, "days".toList]⟩]).1 =
      [⟨some ⟨2025, 1, 10⟩, "Morning".toList, "happy day".toList, 3/10,
        "Positive".toList, ["happy".toList, "days".toList]⟩] :=
  C5_insert_roundtrip _ ⟨2025, 1, 10⟩ "Morning".toList (3/10) "Positive".toList
    ["happy".toList, "days".toList] rfl (by decide) rfl rfl rfl rfl (by decide)

/-- C10 witness: the theorem applied at a concrete entry. -/
theorem C10_insert_defaults_witness :
    insert_entries [] [⟨PyDateVal.strv "2025-01-10".toList, none, "hi".toList,
        none, none, none⟩] =
      ([⟨(PyDateVal.strv "2025-01-10".toList).pyStr, [], "hi".toList, 0,
        "Neutral".toList, []⟩], 1) ∧
    insert_entries [] [⟨PyDateVal.strv "2025-01-10".toList, none, "hi".toList,
        none, none, some []⟩] =
      ([⟨(PyDateVal.strv "2025-01-10".toList).pyStr, [], "hi".toList, 0,
        "Neutral".toList, []⟩], 1) := by
  have h := C10_insert_defaults [] (PyDateVal.strv "2025-01-10".toList) "hi".toList
  simpa using h
